import Mathlib

/-!
Shallow embedding of `netlink-bindings/src/utils.rs`: the TLV (netlink
attribute) codec engine.  Byte buffers are `List Nat` (each element a `u8`
value), `usize`/`u16` become `Nat` with explicit `% 2 ^ w` where machine
overflow matters, Rust slice-indexing panics become `Except.error`, and the
stateful writer/cursor operations are explicit state passing.
-/

namespace Netlink

/-- `pub const NLA_F_NESTED: u16 = 1 << 15;` -/
def NLA_F_NESTED : Nat := 1 <<< 15

/-- `pub const NLA_F_NET_BYTEORDER: u16 = 1 << 14;` -/
def NLA_F_NET_BYTEORDER : Nat := 1 <<< 14

/-- `pub const NLA_ALIGNTO: usize = 4;` -/
def NLA_ALIGNTO : Nat := 4

/-- `nla_type`: `r#type & (!(NLA_F_NESTED | NLA_F_NET_BYTEORDER))`.
The `u16` complement `!m` is `0xFFFF ^^^ m`. -/
def nla_type (t : Nat) : Nat := t &&& (65535 ^^^ (NLA_F_NESTED ||| NLA_F_NET_BYTEORDER))

/-- `nla_align_up`: `((len) + NLA_ALIGNTO - 1) & !(NLA_ALIGNTO - 1)`.
Clearing the two low bits of `len + 3` rounds it down to a multiple of 4,
i.e. `(len + 3) / 4 * 4`; the `usize` wrap at `len = 2^64 - 3` is outside the
modelled range (buffer lengths). -/
def nla_align_up (len : Nat) : Nat := (len + NLA_ALIGNTO - 1) / NLA_ALIGNTO * NLA_ALIGNTO

/-- `align`: extend the buffer with `nla_align_up(len) - len` zero bytes. -/
def align (buf : List Nat) : List Nat :=
  buf ++ List.replicate (nla_align_up buf.length - buf.length) 0

/-- `u16::to_ne_bytes` (standard library): the two bytes of a `u16` value in
native byte order.  The spec fixes native order as little-endian via the
concrete wire example `07 00 05 00` (length 7, type 5). -/
def u16_bytes (v : Nat) : List Nat := [v % 256, v / 256 % 256]

/-- Modelled from the spec: `parse_u16` lives in `crate::primitives`, which is
not among the provided sources.  The spec's wire format (`length : u16`,
`type : u16` in native byte order) and its concrete example bytes
`07 00 05 00` fix it as a two-byte little-endian `u16` read that fails on any
other slice length. -/
def parse_u16 (bytes : List Nat) : Option Nat :=
  match bytes with
  | [b0, b1] => some (b0 + 256 * b1)
  | _ => none

/-- `push_header_type(buf, type, len, is_nested) -> usize` (returns the header
offset).  The `u16` sum `len + 4` wraps modulo `2 ^ 16`. -/
def push_header_type (buf : List Nat) (ty len : Nat) (is_nested : Bool) : List Nat × Nat :=
  let buf1 := align buf
  let header_offset := buf1.length
  let ty2 := if is_nested then ty ||| NLA_F_NESTED else ty
  let buf2 := buf1 ++ u16_bytes ((len + 4) % 65536) ++ u16_bytes ty2
  (align buf2, header_offset)

/-- `push_nested_header(buf, type) -> usize`. -/
def push_nested_header (buf : List Nat) (ty : Nat) : List Nat × Nat :=
  push_header_type buf ty 0 true

/-- `push_header(buf, type, len) -> usize`. -/
def push_header (buf : List Nat) (ty len : Nat) : List Nat × Nat :=
  push_header_type buf ty len false

/-- `finalize_nested_header(buf, offset)`: align, then overwrite the two
length bytes at `offset` with `(buf.len() - offset) as u16`
(`copy_from_slice` of the two native-order bytes). -/
def finalize_nested_header (buf : List Nat) (offset : Nat) : List Nat :=
  let buf1 := align buf
  let len := (buf1.length - offset) % 65536
  (buf1.set offset (len % 256)).set (offset + 1) (len / 256 % 256)

/-- `pub struct Header { pub r#type: u16, pub is_nested: bool }` -/
structure Header where
  type : Nat
  is_nested : Bool
deriving Repr, DecidableEq

/-- Rust subslice `&buf[pos..]`: panics (here `Except.error`) when
`pos > buf.len()`. -/
def sliceFrom (buf : List Nat) (pos : Nat) : Except String (List Nat) :=
  if pos ≤ buf.length then .ok (buf.drop pos)
  else .error ("range start index out of range for slice")

/-- Body of `chop_header` after the initial `&buf[*pos..]` slice; `rest` is
that slice and `pos` the incoming position.  The two `return None` early
exits of the source are the two `if` branches; `parse_u16(..).unwrap()` is
total here because both reads happen under the `rest.length ≥ 4` check, so it
is modelled with `Option.getD`.  The inner slices `&buf[0..2]`, `&buf[2..4]`
and `&buf[4..len]` are in bounds thanks to the two checks, hence modelled by
total `take`/`drop`. -/
def chop_rest (rest : List Nat) (pos : Nat) : Option (Header × List Nat × Nat) :=
  if rest.length < 4 then none
  else if (parse_u16 (rest.take 2)).getD 0 < 4 ∨ rest.length < (parse_u16 (rest.take 2)).getD 0 then
    none
  else
    some
      ({ type := nla_type ((parse_u16 ((rest.drop 2).take 2)).getD 0),
         is_nested := ((parse_u16 ((rest.drop 2).take 2)).getD 0 &&& NLA_F_NESTED) != 0 },
       (rest.drop 4).take ((parse_u16 (rest.take 2)).getD 0 - 4),
       pos + min (nla_align_up ((parse_u16 (rest.take 2)).getD 0)) rest.length)

/-- `chop_header(buf, &mut pos) -> Option<(Header, &[u8])>`: decode one TLV
record at `pos`.  The returned triple carries the updated position
(`*pos += next_len.min(buf.len())`); the initial slice `&buf[*pos..]` panics
when `pos` is past the end of the buffer. -/
def chop_header (buf : List Nat) (pos : Nat) : Except String (Option (Header × List Nat × Nat)) :=
  match sliceFrom buf pos with
  | .error e => .error e
  | .ok rest => .ok (chop_rest rest pos)

/-! ### Arithmetic and bit-level helper lemmas -/

lemma mask_const_eq : (65535 ^^^ (NLA_F_NESTED ||| NLA_F_NET_BYTEORDER)) = 16383 := by decide

lemma NLA_F_NESTED_eq : NLA_F_NESTED = 2 ^ 15 := by decide

lemma nla_type_eq_land (t : Nat) : nla_type t = t &&& 16383 := by
  rw [nla_type, mask_const_eq]

lemma nla_type_eq_mod (t : Nat) : nla_type t = t % 16384 := by
  rw [nla_type_eq_land]
  have h : (16383 : Nat) = 2 ^ 14 - 1 := by norm_num
  rw [h, Nat.and_pow_two_sub_one_eq_mod]

lemma nla_type_of_lt {t : Nat} (h : t < 16384) : nla_type t = t := by
  rw [nla_type_eq_mod]; exact Nat.mod_eq_of_lt h

lemma land_nested_eq_zero {t : Nat} (h : t < 32768) : t &&& NLA_F_NESTED = 0 := by
  rw [NLA_F_NESTED_eq]
  apply Nat.eq_of_testBit_eq
  intro i
  rw [Nat.testBit_land]
  rcases eq_or_ne i 15 with rfl | hne
  · rw [Nat.testBit_lt_two_pow (show t < 2 ^ 15 by norm_num; omega)]
    simp
  · rw [Nat.testBit_two_pow_of_ne (Ne.symm hne)]
    simp

lemma lor_nested_land (t : Nat) : (t ||| NLA_F_NESTED) &&& NLA_F_NESTED = NLA_F_NESTED := by
  rw [Nat.and_distrib_right, Nat.and_self]
  apply Nat.eq_of_testBit_eq
  intro i
  rw [Nat.testBit_or, Nat.testBit_land]
  cases h : Nat.testBit NLA_F_NESTED i <;> simp

lemma nla_type_lor_nested {t : Nat} (h : t < 16384) : nla_type (t ||| NLA_F_NESTED) = t := by
  rw [nla_type_eq_land, Nat.and_distrib_right]
  have h1 : t &&& 16383 = t := by
    rw [← nla_type_eq_land, nla_type_of_lt h]
  have h2 : NLA_F_NESTED &&& 16383 = 0 := by decide
  rw [h1, h2, Nat.or_zero]

lemma lor_nested_lt (t : Nat) (h : t < 65536) : t ||| NLA_F_NESTED < 65536 := by
  have e : (2 : Nat) ^ 16 = 65536 := by norm_num
  have h1 : NLA_F_NESTED < 2 ^ 16 := by rw [e]; decide
  have h2 : t < 2 ^ 16 := by rw [e]; exact h
  have h3 := Nat.or_lt_two_pow h2 h1
  rw [e] at h3
  exact h3

lemma le_nla_align_up (n : Nat) : n ≤ nla_align_up n := by
  unfold nla_align_up NLA_ALIGNTO; omega

lemma nla_align_up_lt (n : Nat) : nla_align_up n < n + 4 := by
  unfold nla_align_up NLA_ALIGNTO; omega

lemma nla_align_up_mod (n : Nat) : nla_align_up n % 4 = 0 := by
  unfold nla_align_up NLA_ALIGNTO; omega

lemma nla_align_up_of_aligned {n : Nat} (h : n % 4 = 0) : nla_align_up n = n := by
  unfold nla_align_up NLA_ALIGNTO; omega

lemma nla_align_up_add {m : Nat} (k : Nat) (h : m % 4 = 0) :
    nla_align_up (m + k) = m + nla_align_up k := by
  unfold nla_align_up NLA_ALIGNTO; omega

/-! ### Writer structure lemmas -/

lemma length_align (b : List Nat) : (align b).length = nla_align_up b.length := by
  have := le_nla_align_up b.length
  simp [align]
  omega

lemma align_length_mod (b : List Nat) : (align b).length % 4 = 0 := by
  rw [length_align]; exact nla_align_up_mod _

lemma align_of_aligned {b : List Nat} (h : b.length % 4 = 0) : align b = b := by
  simp [align, nla_align_up_of_aligned h]

lemma parse_u16_u16_bytes (v : Nat) (h : v < 65536) :
    (parse_u16 (u16_bytes v)).getD 0 = v := by
  simp [u16_bytes, parse_u16]
  omega

/-! ### The record-writing sequence described by the spec

`write_attr` is the encoding pattern the spec round-trip talks about:
`push_header`, append the payload bytes, pad to 4-byte alignment.
`write_attrs` iterates it. -/

/-- One record written the way the spec describes: `push_header` with the
payload length, append the payload, re-align.  Returns the new buffer and the
header offset `push_header` returned. -/
def write_attr (buf : List Nat) (ty : Nat) (p : List Nat) : List Nat × Nat :=
  let r := push_header buf ty p.length
  (align (r.1 ++ p), r.2)

/-- A sequence of records written with `write_attr`, left to right. -/
def write_attrs (buf : List Nat) (recs : List (Nat × List Nat)) : List Nat :=
  recs.foldl (fun b r => (write_attr b r.1 r.2).1) buf

/-- The bytes one `write_attr` appends to a 4-byte-aligned buffer: length
field, type field, payload, zero padding up to the aligned record length. -/
def attr_bytes (ty : Nat) (p : List Nat) : List Nat :=
  u16_bytes ((p.length + 4) % 65536) ++ u16_bytes ty ++ p ++
    List.replicate (nla_align_up (p.length + 4) - (p.length + 4)) 0

lemma attr_bytes_length (ty : Nat) (p : List Nat) :
    (attr_bytes ty p).length = nla_align_up (p.length + 4) := by
  have := le_nla_align_up (p.length + 4)
  simp [attr_bytes, u16_bytes]
  omega

lemma write_attr_aligned (buf : List Nat) (ty : Nat) (p : List Nat)
    (h : buf.length % 4 = 0) :
    write_attr buf ty p = (buf ++ attr_bytes ty p, buf.length) := by
  unfold write_attr push_header push_header_type
  simp only [if_neg Bool.false_ne_true, Bool.false_eq_true, if_false]
  rw [align_of_aligned h]
  have h4 : (buf ++ u16_bytes ((p.length + 4) % 65536) ++ u16_bytes ty).length % 4 = 0 := by
    simp [u16_bytes]
    omega
  rw [align_of_aligned h4]
  refine Prod.ext ?_ rfl
  show align (buf ++ u16_bytes ((p.length + 4) % 65536) ++ u16_bytes ty ++ p)
      = buf ++ attr_bytes ty p
  have hcount :
      nla_align_up ((buf ++ u16_bytes ((p.length + 4) % 65536) ++ u16_bytes ty ++ p).length)
        - (buf ++ u16_bytes ((p.length + 4) % 65536) ++ u16_bytes ty ++ p).length
      = nla_align_up (p.length + 4) - (p.length + 4) := by
    have hl : (buf ++ u16_bytes ((p.length + 4) % 65536) ++ u16_bytes ty ++ p).length
        = buf.length + (p.length + 4) := by
      simp [u16_bytes]
      try omega
    rw [hl, nla_align_up_add (p.length + 4) h]
    omega
  unfold align
  rw [hcount]
  simp [attr_bytes, List.append_assoc]

/-! ### Decoding one well-formed record -/

/-- `chop_rest` on a slice whose head is a well-formed record: length field
`p.length + 4`, raw type field `tyb`, payload `p`, zero padding, then
arbitrary following bytes. -/
lemma chop_rest_at (tyb : Nat) (p tail : List Nat) (pos : Nat)
    (hty : tyb < 65536) (hlen : p.length + 4 < 65536) :
    chop_rest (u16_bytes (p.length + 4) ++ u16_bytes tyb ++ p ++
        List.replicate (nla_align_up (p.length + 4) - (p.length + 4)) 0 ++ tail) pos
      = some ({ type := nla_type tyb, is_nested := (tyb &&& NLA_F_NESTED) != 0 },
              p, pos + nla_align_up (p.length + 4)) := by
  have hpad : p.length + 4 ≤ nla_align_up (p.length + 4) := le_nla_align_up _
  have hup : nla_align_up (p.length + 4) < p.length + 4 + 4 := nla_align_up_lt _
  have hrest : u16_bytes (p.length + 4) ++ u16_bytes tyb ++ p ++
      List.replicate (nla_align_up (p.length + 4) - (p.length + 4)) 0 ++ tail
      = (p.length + 4) % 256 :: (p.length + 4) / 256 % 256 :: tyb % 256 :: tyb / 256 % 256 ::
        (p ++ List.replicate (nla_align_up (p.length + 4) - (p.length + 4)) 0 ++ tail) := by
    simp [u16_bytes, List.append_assoc]
  rw [hrest]
  have htake : ((p.length + 4) % 256 :: (p.length + 4) / 256 % 256 :: tyb % 256 ::
      tyb / 256 % 256 ::
      (p ++ List.replicate (nla_align_up (p.length + 4) - (p.length + 4)) 0 ++ tail)).take 2
      = [(p.length + 4) % 256, (p.length + 4) / 256 % 256] := rfl
  have hdroptake : (((p.length + 4) % 256 :: (p.length + 4) / 256 % 256 :: tyb % 256 ::
      tyb / 256 % 256 ::
      (p ++ List.replicate (nla_align_up (p.length + 4) - (p.length + 4)) 0 ++ tail)).drop 2).take 2
      = [tyb % 256, tyb / 256 % 256] := rfl
  unfold chop_rest
  rw [htake, hdroptake]
  have hparse1 : (parse_u16 [(p.length + 4) % 256, (p.length + 4) / 256 % 256]).getD 0
      = p.length + 4 := by
    simp [parse_u16]
    omega
  have hparse2 : (parse_u16 [tyb % 256, tyb / 256 % 256]).getD 0 = tyb := by
    simp [parse_u16]
    omega
  rw [hparse1, hparse2]
  have hlength : ((p.length + 4) % 256 :: (p.length + 4) / 256 % 256 :: tyb % 256 ::
      tyb / 256 % 256 ::
      (p ++ List.replicate (nla_align_up (p.length + 4) - (p.length + 4)) 0 ++ tail)).length
      = nla_align_up (p.length + 4) + tail.length := by
    simp
    omega
  rw [hlength]
  rw [if_neg (by omega), if_neg (by omega)]
  have hdrop4 : ((p.length + 4) % 256 :: (p.length + 4) / 256 % 256 :: tyb % 256 ::
      tyb / 256 % 256 ::
      (p ++ List.replicate (nla_align_up (p.length + 4) - (p.length + 4)) 0 ++ tail)).drop 4
      = p ++ (List.replicate (nla_align_up (p.length + 4) - (p.length + 4)) 0 ++ tail) := by
    simp [List.append_assoc]
  rw [hdrop4]
  have hsub : p.length + 4 - 4 = p.length := by omega
  rw [hsub, List.take_left]
  have hmin : min (nla_align_up (p.length + 4)) (nla_align_up (p.length + 4) + tail.length)
      = nla_align_up (p.length + 4) := by omega
  rw [hmin]

/-- Lift of `chop_rest_at` to `chop_header`: whatever the bytes before `pos`
are, decoding at `pos` sees exactly the record that starts there. -/
lemma chop_header_at {buf : List Nat} {pos : Nat} (tyb : Nat) (p tail : List Nat)
    (hty : tyb < 65536) (hlen : p.length + 4 < 65536)
    (hdrop : buf.drop pos = u16_bytes (p.length + 4) ++ u16_bytes tyb ++ p ++
        List.replicate (nla_align_up (p.length + 4) - (p.length + 4)) 0 ++ tail) :
    chop_header buf pos
      = .ok (some ({ type := nla_type tyb, is_nested := (tyb &&& NLA_F_NESTED) != 0 },
                   p, pos + nla_align_up (p.length + 4))) := by
  have hpos : pos ≤ buf.length := by
    have h := congrArg List.length hdrop
    simp [u16_bytes] at h
    omega
  unfold chop_header sliceFrom
  rw [if_pos hpos]
  show Except.ok (chop_rest (buf.drop pos) pos) = _
  rw [hdrop, chop_rest_at tyb p tail pos hty hlen]

lemma sliceFrom_ok {buf : List Nat} {pos : Nat} {rest : List Nat}
    (h : sliceFrom buf pos = .ok rest) : pos ≤ buf.length ∧ rest = buf.drop pos := by
  unfold sliceFrom at h
  by_cases hp : pos ≤ buf.length
  · rw [if_pos hp] at h
    exact ⟨hp, (Except.ok.inj h).symm⟩
  · rw [if_neg hp] at h
    exact absurd h (by simp)

/-- When `chop_header` yields a record, the position strictly advances and
stays within the buffer. -/
lemma chop_header_pos_bound {buf : List Nat} {pos : Nat} {hd : Header} {p : List Nat}
    {pos' : Nat} (h : chop_header buf pos = .ok (some (hd, p, pos'))) :
    pos < pos' ∧ pos' ≤ buf.length := by
  unfold chop_header at h
  cases hs : sliceFrom buf pos with
  | error e =>
    rw [hs] at h
    simp at h
  | ok rest =>
    rw [hs] at h
    have h2 : chop_rest rest pos = some (hd, p, pos') := Except.ok.inj h
    obtain ⟨hple, hrest⟩ := sliceFrom_ok hs
    subst hrest
    unfold chop_rest at h2
    by_cases h3 : (buf.drop pos).length < 4
    · rw [if_pos h3] at h2
      simp at h2
    · rw [if_neg h3] at h2
      by_cases h4 : (parse_u16 ((buf.drop pos).take 2)).getD 0 < 4 ∨
          (buf.drop pos).length < (parse_u16 ((buf.drop pos).take 2)).getD 0
      · rw [if_pos h4] at h2
        simp at h2
      · rw [if_neg h4] at h2
        have h5 := Option.some.inj h2
        have h6 : pos + min (nla_align_up ((parse_u16 ((buf.drop pos).take 2)).getD 0))
            (buf.drop pos).length = pos' := congrArg (fun x => x.2.2) h5
        push_neg at h4
        have h9 := le_nla_align_up ((parse_u16 ((buf.drop pos).take 2)).getD 0)
        have h10 : (buf.drop pos).length = buf.length - pos := by simp
        omega

/-- Left-to-right TLV walk by repeated `chop_header` calls, as the generated
decoding layer performs it; stops at end-of-stream or on a panic. -/
def chop_all (buf : List Nat) (pos : Nat) : List (Header × List Nat) :=
  match h : chop_header buf pos with
  | .ok (some (hd, p, pos')) => (hd, p) :: chop_all buf pos'
  | .ok none => []
  | .error _ => []
termination_by buf.length - pos
decreasing_by
  have := chop_header_pos_bound h
  omega

lemma chop_all_some {buf : List Nat} {pos : Nat} {hd : Header} {p : List Nat} {pos' : Nat}
    (h : chop_header buf pos = .ok (some (hd, p, pos'))) :
    chop_all buf pos = (hd, p) :: chop_all buf pos' := by
  rw [chop_all]
  split
  · rename_i hd2 p2 pos2 heq
    rw [h] at heq
    simp only [Except.ok.injEq, Option.some.injEq, Prod.mk.injEq] at heq
    obtain ⟨h1, h2, h3⟩ := heq
    rw [h1, h2, h3]
  · rename_i heq
    rw [h] at heq
    simp at heq
  · rename_i e heq
    rw [h] at heq
    simp at heq

lemma chop_all_end {buf : List Nat} {pos : Nat} (h : chop_header buf pos = .ok none) :
    chop_all buf pos = [] := by
  rw [chop_all]
  split
  · rename_i hd2 p2 pos2 heq
    rw [h] at heq
    simp at heq
  · rfl
  · rfl

/-- `chop_header` at a position with fewer than 4 remaining bytes:
end-of-stream. -/
lemma chop_header_end {buf : List Nat} {pos : Nat} (h1 : pos ≤ buf.length)
    (h2 : buf.length - pos < 4) : chop_header buf pos = .ok none := by
  unfold chop_header sliceFrom
  rw [if_pos h1]
  show Except.ok (chop_rest (buf.drop pos) pos) = _
  unfold chop_rest
  rw [if_pos (by simpa using h2)]

lemma write_attrs_cons (buf : List Nat) (r : Nat × List Nat) (rs : List (Nat × List Nat)) :
    write_attrs buf (r :: rs) = write_attrs ((write_attr buf r.1 r.2).1) rs := rfl

lemma attr_bytes_append_mod {buf : List Nat} (ty : Nat) (p : List Nat)
    (h : buf.length % 4 = 0) : (buf ++ attr_bytes ty p).length % 4 = 0 := by
  have := nla_align_up_mod (p.length + 4)
  simp [attr_bytes_length]
  omega

lemma write_attrs_split (rs : List (Nat × List Nat)) :
    ∀ buf : List Nat, buf.length % 4 = 0 → ∃ s, write_attrs buf rs = buf ++ s := by
  induction rs with
  | nil =>
    intro buf _
    exact ⟨[], by simp [write_attrs]⟩
  | cons r rs ih =>
    intro buf hb
    obtain ⟨ty, p⟩ := r
    have hw := write_attr_aligned buf ty p hb
    obtain ⟨s, hs⟩ := ih (buf ++ attr_bytes ty p) (attr_bytes_append_mod ty p hb)
    refine ⟨attr_bytes ty p ++ s, ?_⟩
    rw [write_attrs_cons]
    have hfst : (write_attr buf ty p).1 = buf ++ attr_bytes ty p := by rw [hw]
    rw [hfst, hs, List.append_assoc]

/-- The walk over a buffer built by writing `recs` onto any 4-byte-aligned
prefix buffer, starting at the first written header's offset, recovers the
records in order, with their type ids, `is_nested = false`, and payloads. -/
lemma chop_all_write_attrs (recs : List (Nat × List Nat)) :
    ∀ buf : List Nat, buf.length % 4 = 0 →
      (∀ r ∈ recs, r.1 < 16384 ∧ r.2.length + 4 < 65536) →
      chop_all (write_attrs buf recs) buf.length
        = recs.map (fun r => ({ type := r.1, is_nested := false }, r.2)) := by
  induction recs with
  | nil =>
    intro buf hb _
    show chop_all buf buf.length = []
    exact chop_all_end (chop_header_end le_rfl (by omega))
  | cons r rs ih =>
    intro buf hb hr
    obtain ⟨ty, p⟩ := r
    have hty := (hr (ty, p) (by simp)).1
    have hlen := (hr (ty, p) (by simp)).2
    have hw := write_attr_aligned buf ty p hb
    have hfst : (write_attr buf ty p).1 = buf ++ attr_bytes ty p := by rw [hw]
    have hb1 := attr_bytes_append_mod ty p hb
    obtain ⟨s, hs⟩ := write_attrs_split rs (buf ++ attr_bytes ty p) hb1
    have hmod : (p.length + 4) % 65536 = p.length + 4 := Nat.mod_eq_of_lt hlen
    have hdrop : (buf ++ attr_bytes ty p ++ s).drop buf.length
        = u16_bytes (p.length + 4) ++ u16_bytes ty ++ p ++
          List.replicate (nla_align_up (p.length + 4) - (p.length + 4)) 0 ++ s := by
      rw [List.append_assoc, List.drop_left]
      unfold attr_bytes
      rw [hmod]
    have hchop := chop_header_at ty p s (by omega) hlen hdrop
    rw [nla_type_of_lt hty] at hchop
    rw [land_nested_eq_zero (show ty < 32768 by omega)] at hchop
    have hlen1 : (buf ++ attr_bytes ty p).length = buf.length + nla_align_up (p.length + 4) := by
      simp [attr_bytes_length]
    rw [write_attrs_cons, hfst, hs]
    rw [chop_all_some hchop]
    have htail : chop_all (buf ++ attr_bytes ty p ++ s) (buf.length + nla_align_up (p.length + 4))
        = rs.map (fun r => ({ type := r.1, is_nested := false }, r.2)) := by
      rw [← hlen1, ← hs]
      exact ih (buf ++ attr_bytes ty p) hb1 (fun r hrm => hr r (by simp [hrm]))
    rw [htail]
    simp

lemma chop_header_ok {buf : List Nat} {pos : Nat} (hpos : pos ≤ buf.length) :
    chop_header buf pos = .ok (chop_rest (buf.drop pos) pos) := by
  unfold chop_header sliceFrom
  rw [if_pos hpos]

/-- The length field a decoder at `(buf, pos)` reads: the two bytes at `pos`,
as `parse_u16` reads them (`0` when fewer than two bytes remain — a case
`chop_header` reports as end-of-stream before ever using the value). -/
def declared_len (buf : List Nat) (pos : Nat) : Nat :=
  (parse_u16 ((buf.drop pos).take 2)).getD 0

/-- The nested-record scenario the spec describes: `push_nested_header` on an
empty buffer, two child records via `push_header` (payload appended,
re-aligned), then `finalize_nested_header` at the returned offset. -/
def nested_scenario (ty0 ty1 ty2 : Nat) (p1 p2 : List Nat) : List Nat :=
  let r0 := push_nested_header [] ty0
  let b1 := (write_attr r0.1 ty1 p1).1
  let b2 := (write_attr b1 ty2 p2).1
  finalize_nested_header b2 r0.2

lemma write_attrs_two (ty1 ty2 : Nat) (p1 p2 : List Nat) :
    write_attrs [] [(ty1, p1), (ty2, p2)] = attr_bytes ty1 p1 ++ attr_bytes ty2 p2 := by
  rw [write_attrs_cons]
  have hf1 : (write_attr [] ty1 p1).1 = attr_bytes ty1 p1 := by
    rw [write_attr_aligned [] ty1 p1 rfl]
    simp
  rw [hf1, write_attrs_cons]
  have hmod1 : (attr_bytes ty1 p1).length % 4 = 0 := by
    rw [attr_bytes_length]
    exact nla_align_up_mod _
  have hf2 : (write_attr (attr_bytes ty1 p1) ty2 p2).1
      = attr_bytes ty1 p1 ++ attr_bytes ty2 p2 := by
    rw [write_attr_aligned (attr_bytes ty1 p1) ty2 p2 hmod1]
  rw [hf2]
  rfl

/-- The byte-level shape of `nested_scenario`: backpatched outer length field,
outer type with the nested flag, then the two children's bytes. -/
lemma nested_scenario_eq (ty0 ty1 ty2 : Nat) (p1 p2 : List Nat)
    (htot : 4 + nla_align_up (p1.length + 4) + nla_align_up (p2.length + 4) < 65536) :
    nested_scenario ty0 ty1 ty2 p1 p2
      = u16_bytes (4 + nla_align_up (p1.length + 4) + nla_align_up (p2.length + 4))
        ++ u16_bytes (ty0 ||| NLA_F_NESTED)
        ++ (attr_bytes ty1 p1 ++ attr_bytes ty2 p2) := by
  have hm1 := nla_align_up_mod (p1.length + 4)
  have hm2 := nla_align_up_mod (p2.length + 4)
  have hr0 : push_nested_header [] ty0
      = ([4, 0, (ty0 ||| NLA_F_NESTED) % 256, (ty0 ||| NLA_F_NESTED) / 256 % 256], 0) := by
    unfold push_nested_header push_header_type align u16_bytes nla_align_up NLA_ALIGNTO
    simp
  have hr0a : (push_nested_header [] ty0).1
      = [4, 0, (ty0 ||| NLA_F_NESTED) % 256, (ty0 ||| NLA_F_NESTED) / 256 % 256] := by
    rw [hr0]
  have hr0b : (push_nested_header [] ty0).2 = 0 := by
    rw [hr0]
  have hb1 : (write_attr [4, 0, (ty0 ||| NLA_F_NESTED) % 256,
      (ty0 ||| NLA_F_NESTED) / 256 % 256] ty1 p1).1
      = [4, 0, (ty0 ||| NLA_F_NESTED) % 256, (ty0 ||| NLA_F_NESTED) / 256 % 256]
        ++ attr_bytes ty1 p1 := by
    rw [write_attr_aligned [4, 0, (ty0 ||| NLA_F_NESTED) % 256,
      (ty0 ||| NLA_F_NESTED) / 256 % 256] ty1 p1 (by simp)]
  have hmodb1 : ([4, 0, (ty0 ||| NLA_F_NESTED) % 256, (ty0 ||| NLA_F_NESTED) / 256 % 256]
      ++ attr_bytes ty1 p1).length % 4 = 0 := by
    simp [attr_bytes_length]
    omega
  have hb2 : (write_attr ([4, 0, (ty0 ||| NLA_F_NESTED) % 256,
      (ty0 ||| NLA_F_NESTED) / 256 % 256] ++ attr_bytes ty1 p1) ty2 p2).1
      = ([4, 0, (ty0 ||| NLA_F_NESTED) % 256, (ty0 ||| NLA_F_NESTED) / 256 % 256]
        ++ attr_bytes ty1 p1) ++ attr_bytes ty2 p2 := by
    rw [write_attr_aligned ([4, 0, (ty0 ||| NLA_F_NESTED) % 256,
      (ty0 ||| NLA_F_NESTED) / 256 % 256] ++ attr_bytes ty1 p1) ty2 p2 hmodb1]
  have hmodb2 : (([4, 0, (ty0 ||| NLA_F_NESTED) % 256, (ty0 ||| NLA_F_NESTED) / 256 % 256]
      ++ attr_bytes ty1 p1) ++ attr_bytes ty2 p2).length % 4 = 0 := by
    simp [attr_bytes_length]
    omega
  have hblen : (([4, 0, (ty0 ||| NLA_F_NESTED) % 256, (ty0 ||| NLA_F_NESTED) / 256 % 256]
      ++ attr_bytes ty1 p1) ++ attr_bytes ty2 p2).length
      = 4 + nla_align_up (p1.length + 4) + nla_align_up (p2.length + 4) := by
    simp [attr_bytes_length]
    omega
  show finalize_nested_header
      ((write_attr ((write_attr (push_nested_header [] ty0).1 ty1 p1).1) ty2 p2).1)
      (push_nested_header [] ty0).2
      = _
  rw [hr0a, hr0b, hb1, hb2]
  simp only [finalize_nested_header]
  rw [align_of_aligned hmodb2, hblen]
  have hTL : (4 + nla_align_up (p1.length + 4) + nla_align_up (p2.length + 4) - 0) % 65536
      = 4 + nla_align_up (p1.length + 4) + nla_align_up (p2.length + 4) := by omega
  rw [hTL]
  simp only [List.cons_append, List.nil_append, List.append_assoc]
  simp [u16_bytes, List.set]

/-- C2: writing a nested header, two children via `push_header`, then
`finalize_nested_header` at the returned offset yields an outer record whose
decoded header carries the nested flag (and the outer type id), and whose
payload, walked from position 0, is exactly the two children with their
payloads, followed by end-of-stream. -/
theorem c2_nested_roundtrip (ty0 ty1 ty2 : Nat) (p1 p2 : List Nat)
    (h0 : ty0 < 16384) (h1 : ty1 < 16384) (h2 : ty2 < 16384)
    (hl1 : p1.length + 4 < 65536) (hl2 : p2.length + 4 < 65536)
    (htot : 4 + nla_align_up (p1.length + 4) + nla_align_up (p2.length + 4) < 65536) :
    ∃ payload pos',
      chop_header (nested_scenario ty0 ty1 ty2 p1 p2) 0
        = .ok (some ({ type := ty0, is_nested := true }, payload, pos')) ∧
      chop_all payload 0
        = [({ type := ty1, is_nested := false }, p1),
           ({ type := ty2, is_nested := false }, p2)] ∧
      chop_header payload payload.length = Except.ok none := by
  have hm1 := nla_align_up_mod (p1.length + 4)
  have hm2 := nla_align_up_mod (p2.length + 4)
  have hP : (attr_bytes ty1 p1 ++ attr_bytes ty2 p2).length + 4
      = 4 + nla_align_up (p1.length + 4) + nla_align_up (p2.length + 4) := by
    simp [attr_bytes_length]
    omega
  have htyb : ty0 ||| NLA_F_NESTED < 65536 := lor_nested_lt ty0 (by omega)
  have hdrop : (nested_scenario ty0 ty1 ty2 p1 p2).drop 0
      = u16_bytes ((attr_bytes ty1 p1 ++ attr_bytes ty2 p2).length + 4)
        ++ u16_bytes (ty0 ||| NLA_F_NESTED)
        ++ (attr_bytes ty1 p1 ++ attr_bytes ty2 p2)
        ++ List.replicate
            (nla_align_up ((attr_bytes ty1 p1 ++ attr_bytes ty2 p2).length + 4)
              - ((attr_bytes ty1 p1 ++ attr_bytes ty2 p2).length + 4)) 0
        ++ [] := by
    rw [List.drop_zero, nested_scenario_eq ty0 ty1 ty2 p1 p2 htot, hP]
    have hrep : nla_align_up (4 + nla_align_up (p1.length + 4) + nla_align_up (p2.length + 4))
        - (4 + nla_align_up (p1.length + 4) + nla_align_up (p2.length + 4)) = 0 := by
      have := nla_align_up_of_aligned
        (show (4 + nla_align_up (p1.length + 4) + nla_align_up (p2.length + 4)) % 4 = 0
          by omega)
      omega
    rw [hrep]
    simp
  have hchop := chop_header_at (ty0 ||| NLA_F_NESTED) (attr_bytes ty1 p1 ++ attr_bytes ty2 p2)
    [] htyb (by omega) hdrop
  rw [nla_type_lor_nested h0] at hchop
  rw [lor_nested_land ty0] at hchop
  have hne : (NLA_F_NESTED != 0) = true := by decide
  rw [hne] at hchop
  refine ⟨attr_bytes ty1 p1 ++ attr_bytes ty2 p2,
    0 + nla_align_up ((attr_bytes ty1 p1 ++ attr_bytes ty2 p2).length + 4), hchop, ?_,
    chop_header_end le_rfl (by omega)⟩
  have hwalk := chop_all_write_attrs [(ty1, p1), (ty2, p2)] [] rfl
    (by
      intro r hr
      simp at hr
      rcases hr with hr | hr
      · rw [hr]
        exact ⟨h1, hl1⟩
      · rw [hr]
        exact ⟨h2, hl2⟩)
  rw [write_attrs_two] at hwalk
  simpa using hwalk

/-- Witness for C2 at concrete types and payloads. -/
theorem c2_nested_roundtrip_witness :
    ∃ payload pos',
      chop_header (nested_scenario 1 2 3 [9] [8, 7]) 0
        = .ok (some ({ type := 1, is_nested := true }, payload, pos')) ∧
      chop_all payload 0
        = [({ type := 2, is_nested := false }, [9]),
           ({ type := 3, is_nested := false }, [8, 7])] ∧
      chop_header payload payload.length = Except.ok none :=
  c2_nested_roundtrip 1 2 3 [9] [8, 7] (by decide) (by decide) (by decide)
    (by decide) (by decide) (by decide)

end Netlink

namespace Netlink

/-- C1: for every `type_id < 2 ^ 14` and every payload whose record length
fits the u16 length field, writing records with `push_header`, appending the
payload and padding, then decoding with `chop_header` from the first
header's offset, yields the same type ids with `is_nested = false` and
exactly the payload bytes written, in the order written. -/
theorem c1_roundtrip (buf : List Nat) (recs : List (Nat × List Nat))
    (hbuf : buf.length % 4 = 0)
    (hrecs : ∀ r ∈ recs, r.1 < 16384 ∧ r.2.length + 4 < 65536) :
    chop_all (write_attrs buf recs) buf.length
      = recs.map (fun r => ({ type := r.1, is_nested := false }, r.2)) :=
  chop_all_write_attrs recs buf hbuf hrecs

/-- Witness for C1 at two concrete records. -/
theorem c1_roundtrip_witness :
    chop_all (write_attrs [] [(5, [1, 2, 3]), (300, [9, 9, 9, 9, 9])]) 0
      = [({ type := 5, is_nested := false }, [1, 2, 3]),
         ({ type := 300, is_nested := false }, [9, 9, 9, 9, 9])] :=
  c1_roundtrip [] [(5, [1, 2, 3]), (300, [9, 9, 9, 9, 9])] rfl (by decide)

/-- C3: encoding `type_id = 5`, payload `[1, 2, 3]` into an empty buffer
yields exactly `07 00 05 00 01 02 03 00` with header offset 0; decoding it
from position 0 yields type 5, not nested, payload `[1, 2, 3]`, and a second
call at the updated position 8 yields end-of-stream. -/
theorem c3_concrete :
    (write_attr [] 5 [1, 2, 3]).1 = [7, 0, 5, 0, 1, 2, 3, 0] ∧
    (write_attr [] 5 [1, 2, 3]).2 = 0 ∧
    chop_header [7, 0, 5, 0, 1, 2, 3, 0] 0
      = .ok (some ({ type := 5, is_nested := false }, [1, 2, 3], 8)) ∧
    chop_header [7, 0, 5, 0, 1, 2, 3, 0] 8 = .ok none :=
  ⟨rfl, rfl, rfl, rfl⟩

/-- C4: with `pos` in bounds, `chop_header` returns end-of-stream (`none`,
never an error) exactly when fewer than 4 bytes remain, the declared length
is below 4, or the declared length exceeds the remaining bytes; otherwise it
returns the `declared length - 4` payload bytes that follow the 4 header
bytes, advancing the position by `nla_align_up` of the declared length,
clamped to the buffer's end. -/
theorem c4_end_of_stream (buf : List Nat) (pos : Nat) (hpos : pos ≤ buf.length) :
    (chop_header buf pos = .ok none ↔
      (buf.length - pos < 4 ∨ declared_len buf pos < 4 ∨
        buf.length - pos < declared_len buf pos)) ∧
    (∀ hd p pos', chop_header buf pos = .ok (some (hd, p, pos')) →
      p = ((buf.drop pos).drop 4).take (declared_len buf pos - 4) ∧
      p.length = declared_len buf pos - 4 ∧
      pos' = min (pos + nla_align_up (declared_len buf pos)) buf.length) := by
  have hlend : (buf.drop pos).length = buf.length - pos := by simp
  have hc := chop_header_ok hpos
  have hdecl : declared_len buf pos = (parse_u16 ((buf.drop pos).take 2)).getD 0 := rfl
  constructor
  · rw [hc]
    constructor
    · intro h
      have h2 : chop_rest (buf.drop pos) pos = none := Except.ok.inj h
      unfold chop_rest at h2
      by_cases h3 : (buf.drop pos).length < 4
      · left
        omega
      · rw [if_neg h3] at h2
        by_cases h4 : (parse_u16 ((buf.drop pos).take 2)).getD 0 < 4 ∨
            (buf.drop pos).length < (parse_u16 ((buf.drop pos).take 2)).getD 0
        · rw [hdecl]
          omega
        · rw [if_neg h4] at h2
          exact absurd h2 (by simp)
    · intro h
      have h2 : chop_rest (buf.drop pos) pos = none := by
        unfold chop_rest
        by_cases h3 : (buf.drop pos).length < 4
        · rw [if_pos h3]
        · rw [if_neg h3, if_pos (by rw [hdecl] at h; omega)]
      rw [h2]
  · intro hd p pos' h
    rw [hc] at h
    have h2 : chop_rest (buf.drop pos) pos = some (hd, p, pos') := Except.ok.inj h
    unfold chop_rest at h2
    by_cases h3 : (buf.drop pos).length < 4
    · rw [if_pos h3] at h2
      exact absurd h2 (by simp)
    · rw [if_neg h3] at h2
      by_cases h4 : (parse_u16 ((buf.drop pos).take 2)).getD 0 < 4 ∨
          (buf.drop pos).length < (parse_u16 ((buf.drop pos).take 2)).getD 0
      · rw [if_pos h4] at h2
        exact absurd h2 (by simp)
      · rw [if_neg h4] at h2
        have h5 := Option.some.inj h2
        have hp : ((buf.drop pos).drop 4).take
            ((parse_u16 ((buf.drop pos).take 2)).getD 0 - 4) = p :=
          congrArg (fun x => x.2.1) h5
        have hpos' : pos + min (nla_align_up ((parse_u16 ((buf.drop pos).take 2)).getD 0))
            (buf.drop pos).length = pos' := congrArg (fun x => x.2.2) h5
        push_neg at h4
        refine ⟨by rw [hdecl, hp], ?_, ?_⟩
        · rw [← hp, hdecl]
          have : ((buf.drop pos).drop 4).length = buf.length - pos - 4 := by
            simp
            omega
          rw [List.length_take]
          omega
        · rw [hdecl]
          omega

/-- Witness for C4 at a concrete in-bounds decode. -/
theorem c4_end_of_stream_witness :
    (chop_header [3, 0, 0, 0] 0 = .ok none ↔
      ([3, 0, 0, 0].length - 0 < 4 ∨ declared_len [3, 0, 0, 0] 0 < 4 ∨
        [3, 0, 0, 0].length - 0 < declared_len [3, 0, 0, 0] 0)) ∧
    (∀ hd p pos', chop_header [3, 0, 0, 0] 0 = .ok (some (hd, p, pos')) →
      p = (([3, 0, 0, 0].drop 0).drop 4).take (declared_len [3, 0, 0, 0] 0 - 4) ∧
      p.length = declared_len [3, 0, 0, 0] 0 - 4 ∧
      pos' = min (0 + nla_align_up (declared_len [3, 0, 0, 0] 0)) [3, 0, 0, 0].length) :=
  c4_end_of_stream [3, 0, 0, 0] 0 (by decide)

/-- C8: after any `align`, any header write (`push_header_type`, hence
`push_header` and `push_nested_header`) and any `finalize_nested_header` —
each applied to an arbitrary buffer, covering every interleaving with caller
payload appends — the buffer length is a multiple of 4. -/
theorem c8_alignment (buf : List Nat) (ty len off : Nat) (nested : Bool) :
    (align buf).length % 4 = 0 ∧
    ((push_header_type buf ty len nested).1).length % 4 = 0 ∧
    ((push_header buf ty len).1).length % 4 = 0 ∧
    ((push_nested_header buf ty).1).length % 4 = 0 ∧
    (finalize_nested_header buf off).length % 4 = 0 := by
  refine ⟨align_length_mod buf, ?_, ?_, ?_, ?_⟩
  · show (align _).length % 4 = 0
    exact align_length_mod _
  · show (align _).length % 4 = 0
    exact align_length_mod _
  · show (align _).length % 4 = 0
    exact align_length_mod _
  · show (((align buf).set off _).set (off + 1) _).length % 4 = 0
    simp only [List.length_set]
    exact align_length_mod _

/-- C10: `chop_header` never panics when `pos` is in bounds (it returns an
`ok` result there), any successful decode strictly advances the position and
keeps it within the buffer (so repeated walks stay in bounds and terminate,
cf. `chop_all`), and `pos` beyond the buffer length panics on the initial
slice. -/
theorem c10_safety (buf : List Nat) (pos : Nat) :
    (pos ≤ buf.length → ∃ r, chop_header buf pos = .ok r) ∧
    (∀ hd p pos', chop_header buf pos = .ok (some (hd, p, pos')) →
      pos < pos' ∧ pos' ≤ buf.length) ∧
    (buf.length < pos →
      chop_header buf pos = .error ("range start index out of range for slice")) := by
  refine ⟨?_, fun hd p pos' h => chop_header_pos_bound h, ?_⟩
  · intro h
    exact ⟨_, chop_header_ok h⟩
  · intro h
    unfold chop_header sliceFrom
    rw [if_neg (by omega)]

/-- Witness for C10: a successful decode, its position bounds, and an
out-of-bounds panic, at concrete inputs. -/
theorem c10_safety_witness :
    (∃ r, chop_header [7, 0, 5, 0, 1, 2, 3, 0] 0 = .ok r) ∧
    (0 < 8 ∧ 8 ≤ [7, 0, 5, 0, 1, 2, 3, 0].length) ∧
    chop_header [7, 0, 5, 0, 1, 2, 3, 0] 9
      = .error ("range start index out of range for slice") :=
  ⟨(c10_safety [7, 0, 5, 0, 1, 2, 3, 0] 0).1 (by decide),
   (c10_safety [7, 0, 5, 0, 1, 2, 3, 0] 0).2.1 { type := 5, is_nested := false } [1, 2, 3] 8 rfl,
   (c10_safety [7, 0, 5, 0, 1, 2, 3, 0] 9).2.2 (by decide)⟩

end Netlink

namespace Netlink

/-! ### Cursor, structured errors, dual-mode error construction -/

/-- `pub enum ErrorReason`. -/
inductive ErrorReason where
  | AttrMissing
  | ParsingError
  | UnknownAttr
deriving Repr, DecidableEq

/-- `pub struct ErrorContext` (`&'static str` labels become `String`,
`usize` offset becomes `Nat`). -/
structure ErrorContext where
  attrs : String
  attr : Option String
  offset : Nat
  reason : ErrorReason
deriving Repr, DecidableEq

/-- The `Display` impl for `ErrorContext`; `{:?}` on a plain label renders it
quoted.  `self.attr.unwrap()` in the `AttrMissing` arm is total in the code
because `error_missing` always stores `Some`; modelled with `getD`. -/
def ErrorContext.render (e : ErrorContext) : String :=
  if e.reason = ErrorReason.AttrMissing then
    "Missing attribute \"" ++ e.attr.getD ("") ++ "\" in \"" ++ e.attrs ++ "\""
  else
    "Error parsing " ++
      (match e.attr with
       | some a => "attribute \"" ++ a ++ "\" of \"" ++ e.attrs ++ "\""
       | none =>
         "header of \"" ++ e.attrs ++ "\"" ++
           (if e.reason = ErrorReason.UnknownAttr then (" (unknown attribute)") else (""))) ++
      " at offset " ++ toString e.offset

/-- `pub struct Iterable<'a, AttrSet>`: `buf` holds the wrapped slice's
bytes, `loc` the logical address of its first byte (`buf.as_ptr()` — the
spec requires address arithmetic to be carried as explicit byte offsets),
`pos` the iteration position inside `buf`, and `orig_loc` the origin fixed at
construction.  The `PhantomData<AttrSet>` tag is kept as a type parameter. -/
structure Iterable (AttrSet : Type) where
  buf : List Nat
  loc : Nat
  pos : Nat
  orig_loc : Nat

/-- `Iterable::new(buf)`: the origin is the buffer's own start address. -/
def Iterable.new (AttrSet : Type) (buf : List Nat) (loc : Nat) : Iterable AttrSet :=
  { buf := buf, loc := loc, pos := 0, orig_loc := loc }

/-- `Iterable::with_loc(buf, orig_loc)`; `loc` is the slice's own address. -/
def Iterable.with_loc (AttrSet : Type) (buf : List Nat) (loc orig_loc : Nat) :
    Iterable AttrSet :=
  { buf := buf, loc := loc, pos := 0, orig_loc := orig_loc }

/-- `Iterable::calc_offset(&self, loc)`: clamped byte distance from the
origin (`u16::MAX as usize = 65535`; the `&&` short-circuit guards the
subtraction exactly as in the source). -/
def Iterable.calc_offset {A : Type} (self : Iterable A) (loc : Nat) : Nat :=
  let orig := self.orig_loc
  if orig ≤ loc ∧ loc - orig ≤ 65535 then loc - orig else 0

/-- Outcome of an error-constructor call: in a `cfg!(test)` build it panics
with the rendered message, otherwise it returns the context value. -/
inductive BuildResult (α : Type) where
  | panic (msg : String)
  | value (a : α)
deriving Repr, DecidableEq

/-- `Iterable::error_missing(&self, attrs, attr)`; the offset is computed
from `self.buf.as_ptr()`, i.e. `self.loc`.  `cfgTest` models the compile-time
`cfg!(test)` flag of the build. -/
def Iterable.error_missing {A : Type} (cfgTest : Bool) (self : Iterable A)
    (attrs attr : String) : BuildResult ErrorContext :=
  let ctx : ErrorContext :=
    { attrs := attrs, attr := some attr,
      offset := self.calc_offset self.loc,
      reason := ErrorReason.AttrMissing }
  if cfgTest then BuildResult.panic ctx.render else BuildResult.value ctx

/-- `Iterable::error_context(&mut self, attrs, attr, loc)`: clears `self.buf`
to the empty slice (poisoning) — leaving `self.pos` untouched — then builds
the context.  Returns the updated cursor and the outcome. -/
def Iterable.error_context {A : Type} (cfgTest : Bool) (self : Iterable A)
    (attrs : String) (attr : Option String) (loc : Nat) :
    Iterable A × BuildResult ErrorContext :=
  let self2 : Iterable A := { self with buf := [] }
  let ctx : ErrorContext :=
    { attrs := attrs, attr := attr,
      offset := self2.calc_offset loc,
      reason := if attr.isSome then ErrorReason.ParsingError else ErrorReason.UnknownAttr }
  (self2, if cfgTest then BuildResult.panic ctx.render else BuildResult.value ctx)

/-! ### Fallible-iterator adapters -/

/-- `pub struct MultiAttrIterable<I, T, V>`: the inner iterator is modelled
by its remaining items. -/
structure MultiAttrIterable (T V : Type) where
  inner : List (Except ErrorContext T)
  f : T → Option V

/-- `Iterator::next` for `MultiAttrIterable`: pull one inner item (the inner
iterator advances even when that item is an `Err`), yield the projection of
an `Ok` item, `None` otherwise. -/
def MultiAttrIterable.next {T V : Type} (it : MultiAttrIterable T V) :
    Option V × MultiAttrIterable T V :=
  match it.inner with
  | Except.ok val :: rest => (it.f val, { it with inner := rest })
  | Except.error _ :: rest => (none, { it with inner := rest })
  | [] => (none, it)

/-- `pub struct ArrayIterable<I, T>`. -/
structure ArrayIterable (T : Type) where
  inner : List (Except ErrorContext T)

/-- `Iterator::next` for `ArrayIterable`: yield `Ok` items, `None` on an
`Err` item or on exhaustion (the inner iterator advances either way). -/
def ArrayIterable.next {T : Type} (it : ArrayIterable T) :
    Option T × ArrayIterable T :=
  match it.inner with
  | Except.ok val :: rest => (some val, { inner := rest })
  | Except.error _ :: rest => (none, { inner := rest })
  | [] => (none, it)

/-- Drive a stateful `next` the way a consumer of the iterator protocol does:
collect yielded values, stopping at the first `none`; `fuel` bounds the
number of pulls. -/
def runIter {σ α : Type} (step : σ → Option α × σ) : Nat → σ → List α
  | 0, _ => []
  | n + 1, s =>
    match step s with
    | (some a, s2) => a :: runIter step n s2
    | (none, _) => []

end Netlink

namespace Netlink

/-! ### Adapter truncation lemmas -/

lemma runIter_array (T : Type) (e : ErrorContext) (rest : List (Except ErrorContext T))
    (oks : List T) :
    ∀ fuel, oks.length < fuel →
    runIter ArrayIterable.next fuel { inner := oks.map Except.ok ++ Except.error e :: rest }
      = oks := by
  induction oks with
  | nil =>
    intro fuel hf
    cases fuel with
    | zero => omega
    | succ n => rfl
  | cons a t ih =>
    intro fuel hf
    cases fuel with
    | zero => omega
    | succ n =>
      have hstep : runIter ArrayIterable.next (n + 1)
          { inner := (a :: t).map Except.ok ++ Except.error e :: rest }
          = a :: runIter ArrayIterable.next n
              { inner := t.map Except.ok ++ Except.error e :: rest } := rfl
      rw [hstep, ih n (by simp at hf; omega)]

lemma runIter_succ_some {σ α : Type} (step : σ → Option α × σ) (n : Nat) (s s2 : σ)
    (a : α) (h : step s = (some a, s2)) :
    runIter step (n + 1) s = a :: runIter step n s2 := by
  conv_lhs => unfold runIter
  rw [h]

lemma runIter_succ_none {σ α : Type} (step : σ → Option α × σ) (n : Nat) (s s2 : σ)
    (h : step s = (none, s2)) : runIter step (n + 1) s = [] := by
  conv_lhs => unfold runIter
  rw [h]

lemma runIter_multi (T V : Type) (f : T → Option V) (e : ErrorContext)
    (rest : List (Except ErrorContext T)) (oks : List T) :
    (∀ a ∈ oks, (f a).isSome) →
    ∀ fuel, oks.length < fuel →
    runIter MultiAttrIterable.next fuel
        { inner := oks.map Except.ok ++ Except.error e :: rest, f := f }
      = oks.filterMap f := by
  induction oks with
  | nil =>
    intro _ fuel hf
    cases fuel with
    | zero => omega
    | succ n => rfl
  | cons a t ih =>
    intro hsome fuel hf
    cases fuel with
    | zero => omega
    | succ n =>
      obtain ⟨v, hv⟩ := Option.isSome_iff_exists.mp (hsome a (by simp))
      have hstep0 : MultiAttrIterable.next
          { inner := (a :: t).map Except.ok ++ Except.error e :: rest, f := f }
          = (f a, { inner := t.map Except.ok ++ Except.error e :: rest, f := f }) := rfl
      have hstep := hstep0.trans (by rw [hv])
      rw [runIter_succ_some MultiAttrIterable.next n _ _ v hstep]
      rw [ih (fun b hb => hsome b (by simp [hb])) n (by simp at hf; omega)]
      simp [List.filterMap_cons, hv]

lemma runIter_multi_none (T V : Type) (f : T → Option V) (x : T)
    (more : List (Except ErrorContext T)) (oks : List T) (hx : f x = none) :
    (∀ a ∈ oks, (f a).isSome) →
    ∀ fuel, oks.length < fuel →
    runIter MultiAttrIterable.next fuel
        { inner := oks.map Except.ok ++ Except.ok x :: more, f := f }
      = oks.filterMap f := by
  induction oks with
  | nil =>
    intro _ fuel hf
    cases fuel with
    | zero => omega
    | succ n =>
      have hstep0 : MultiAttrIterable.next
          { inner := ([] : List T).map Except.ok ++ Except.ok x :: more, f := f }
          = (f x, { inner := more, f := f }) := rfl
      have hstep := hstep0.trans (by rw [hx])
      rw [runIter_succ_none MultiAttrIterable.next n _ _ hstep]
      rfl
  | cons a t ih =>
    intro hsome fuel hf
    cases fuel with
    | zero => omega
    | succ n =>
      obtain ⟨v, hv⟩ := Option.isSome_iff_exists.mp (hsome a (by simp))
      have hstep0 : MultiAttrIterable.next
          { inner := (a :: t).map Except.ok ++ Except.ok x :: more, f := f }
          = (f a, { inner := t.map Except.ok ++ Except.ok x :: more, f := f }) := rfl
      have hstep := hstep0.trans (by rw [hv])
      rw [runIter_succ_some MultiAttrIterable.next n _ _ v hstep]
      rw [ih (fun b hb => hsome b (by simp [hb])) n (by simp at hf; omega)]
      simp [List.filterMap_cons, hv]

end Netlink

namespace Netlink

/-! ### Claims C5, C6, C7, C9 -/

/-- A cursor that has consumed one 8-byte record: `pos = 8`, buffer starting
at address 100, origin also 100. -/
def c5_cursor : Iterable Unit :=
  { buf := [7, 0, 5, 0, 1, 2, 3, 0], loc := 100, pos := 8, orig_loc := 100 }

/-- C5 counterexample: on a cursor with `pos = 8`, `error_missing` reports
offset 0 (computed from `buf.as_ptr()` alone), not the distance 8 to the
start of the current remaining slice (`loc + pos`) that the claim demands. -/
theorem c5_counterexample :
    Iterable.error_missing false c5_cursor ("ops") ("id")
      = BuildResult.value
          { attrs := "ops", attr := some ("id"), offset := 0,
            reason := ErrorReason.AttrMissing } ∧
    c5_cursor.loc + c5_cursor.pos - c5_cursor.orig_loc = 8 ∧
    (0 : Nat) ≠ c5_cursor.loc + c5_cursor.pos - c5_cursor.orig_loc :=
  ⟨rfl, rfl, by decide⟩

/-- C5 (amended): `error_missing` produces an `AttrMissing` context whose
offset is the byte distance from the cursor's origin to the start of the
cursor's underlying buffer slice (`buf.as_ptr()`, fixed at cursor creation),
clamped to 0 when the origin lies after it or the distance exceeds 65535;
the current position `pos` does not enter the computation. -/
theorem c5_missing_offset (A : Type) (it : Iterable A) (attrs attr : String) (p : Nat) :
    Iterable.error_missing false it attrs attr
      = BuildResult.value
          { attrs := attrs, attr := some attr,
            offset := if it.orig_loc ≤ it.loc ∧ it.loc - it.orig_loc ≤ 65535
                      then it.loc - it.orig_loc else 0,
            reason := ErrorReason.AttrMissing } ∧
    Iterable.error_missing false ({ it with pos := p } : Iterable A) attrs attr
      = Iterable.error_missing false it attrs attr :=
  ⟨rfl, rfl⟩

/-- A cursor that has consumed one 8-byte record, for the poisoning claim. -/
def c6_cursor : Iterable Unit :=
  { buf := [7, 0, 5, 0, 1, 2, 3, 0], loc := 0, pos := 8, orig_loc := 0 }

/-- C6 counterexample: after `error_context` poisons a cursor whose position
is 8, the next `chop_header` step over its buffer and position panics on the
out-of-range initial slice instead of returning end-of-stream. -/
theorem c6_counterexample :
    chop_header (Iterable.error_context false c6_cursor ("ops") (some ("id")) 0).1.buf
        (Iterable.error_context false c6_cursor ("ops") (some ("id")) 0).1.pos
      = Except.error ("range start index out of range for slice") ∧
    (Except.error ("range start index out of range for slice")
        : Except String (Option (Header × List Nat × Nat)))
      ≠ Except.ok none :=
  ⟨rfl, by simp⟩

/-- C6 (amended): `error_context` empties the cursor's buffer (poisoning) and
leaves `pos` untouched; a subsequent `chop_header` over the poisoned buffer
yields end-of-stream when the position is 0, while a prior position `> 0`
makes it panic on the empty buffer — either way no further data is read. -/
theorem c6_poisoning (A : Type) (it : Iterable A) (attrs : String)
    (attr : Option String) (loc : Nat) :
    (Iterable.error_context false it attrs attr loc).1.buf = [] ∧
    (Iterable.error_context false it attrs attr loc).1.pos = it.pos ∧
    chop_header (Iterable.error_context false it attrs attr loc).1.buf 0 = Except.ok none ∧
    (0 < it.pos →
      chop_header (Iterable.error_context false it attrs attr loc).1.buf
          (Iterable.error_context false it attrs attr loc).1.pos
        = Except.error ("range start index out of range for slice")) := by
  refine ⟨rfl, rfl, rfl, ?_⟩
  intro h
  show chop_header [] it.pos = _
  unfold chop_header sliceFrom
  rw [if_neg (by simp; omega)]

/-- Witness for C6 at a concrete poisoned cursor with position 8. -/
theorem c6_poisoning_witness :
    (Iterable.error_context false c6_cursor ("ops") none 0).1.buf = [] ∧
    (Iterable.error_context false c6_cursor ("ops") none 0).1.pos = c6_cursor.pos ∧
    chop_header (Iterable.error_context false c6_cursor ("ops") none 0).1.buf 0
      = Except.ok none ∧
    chop_header (Iterable.error_context false c6_cursor ("ops") none 0).1.buf
        (Iterable.error_context false c6_cursor ("ops") none 0).1.pos
      = Except.error ("range start index out of range for slice") :=
  ⟨(c6_poisoning Unit c6_cursor ("ops") none 0).1,
   (c6_poisoning Unit c6_cursor ("ops") none 0).2.1,
   (c6_poisoning Unit c6_cursor ("ops") none 0).2.2.1,
   (c6_poisoning Unit c6_cursor ("ops") none 0).2.2.2 (by decide)⟩

/-- A concrete error context for the adapter claims. -/
def c7_err : ErrorContext :=
  { attrs := "s", attr := none, offset := 0, reason := ErrorReason.UnknownAttr }

/-- The 3-item underlying sequence of the claim: item 2 fails. -/
def c7_it : ArrayIterable Nat :=
  { inner := [Except.ok 1, Except.error c7_err, Except.ok 3] }

/-- C7 counterexample: over `[Ok 1, Err, Ok 3]` the array adapter yields
item 1, then `none` at the error — but a third raw pull yields item 3: the
adapter is not fused, so it does not stop *permanently*. -/
theorem c7_counterexample :
    (ArrayIterable.next c7_it).1 = some 1 ∧
    (ArrayIterable.next (ArrayIterable.next c7_it).2).1 = none ∧
    (ArrayIterable.next (ArrayIterable.next (ArrayIterable.next c7_it).2).2).1 = some 3 :=
  ⟨rfl, rfl, rfl⟩

/-- C7 (amended): both adapters yield `none` at the first `Err` item (and the
value-mapping adapter also at the first item whose projection is `none`), so
any consumer following the iterator protocol — stopping at the first `none`,
as `runIter` does — receives exactly the items before the first failure and
never an item after it; the adapters are however not fused, and an explicit
extra pull past the terminating `none` can yield later items. -/
theorem c7_adapters (T V : Type) (oks : List T) (e : ErrorContext)
    (rest : List (Except ErrorContext T)) (f : T → Option V) (x : T)
    (more : List (Except ErrorContext T)) (fuel : Nat)
    (hfuel : oks.length < fuel) (hf : ∀ a ∈ oks, (f a).isSome) (hx : f x = none) :
    runIter ArrayIterable.next fuel
        { inner := oks.map Except.ok ++ Except.error e :: rest } = oks ∧
    runIter MultiAttrIterable.next fuel
        { inner := oks.map Except.ok ++ Except.error e :: rest, f := f }
      = oks.filterMap f ∧
    runIter MultiAttrIterable.next fuel
        { inner := oks.map Except.ok ++ Except.ok x :: more, f := f }
      = oks.filterMap f :=
  ⟨runIter_array T e rest oks fuel hfuel,
   runIter_multi T V f e rest oks hf fuel hfuel,
   runIter_multi_none T V f x more oks hx hf fuel hfuel⟩

/-- Witness for C7: two good items, then a failure (an `Err` for both
adapters, an unprojectable item for the value-mapping adapter). -/
theorem c7_adapters_witness :
    runIter ArrayIterable.next 3
        { inner := [Except.ok 1, Except.ok 2, Except.error c7_err, Except.ok 9] } = [1, 2] ∧
    runIter MultiAttrIterable.next 3
        { inner := [Except.ok 1, Except.ok 2, Except.error c7_err, Except.ok 9],
          f := fun n => if n = 0 then none else some n } = [1, 2] ∧
    runIter MultiAttrIterable.next 3
        { inner := [Except.ok 1, Except.ok 2, Except.ok 0, Except.ok 9],
          f := fun n => if n = 0 then none else some n } = [1, 2] :=
  c7_adapters Nat Nat [1, 2] c7_err [Except.ok 9]
    (fun n => if n = 0 then none else some n) 0 [Except.ok 9] 3
    (by decide) (by decide) rfl

/-- C9 counterexample: in a test build (`cfg!(test) = true`) `error_missing`
always panics, so normal-mode behavior can never be exercised in the same
(test) binary, for any cursor — the mode is not per-cursor. -/
theorem c9_counterexample :
    ¬ ∃ (it : Iterable Unit) (a b : String) (c : ErrorContext),
        Iterable.error_missing true it a b = BuildResult.value c := by
  rintro ⟨it, a, b, c, h⟩
  simp [Iterable.error_missing] at h

/-- C9 (amended): the strict/normal behavior is the compile-time, build-wide
`cfg!(test)` flag, uniform across all cursors of a binary: in a test build
both error constructors panic immediately with the rendered message, and
otherwise both return the `ErrorContext` as a value (`error_context` poisons
the cursor in either mode). -/
theorem c9_dual_mode (A : Type) (it : Iterable A) (attrs attr : String)
    (a2 : Option String) (loc : Nat) :
    Iterable.error_missing true it attrs attr
      = BuildResult.panic
          (ErrorContext.render
            { attrs := attrs, attr := some attr, offset := it.calc_offset it.loc,
              reason := ErrorReason.AttrMissing }) ∧
    Iterable.error_missing false it attrs attr
      = BuildResult.value
          { attrs := attrs, attr := some attr, offset := it.calc_offset it.loc,
            reason := ErrorReason.AttrMissing } ∧
    (Iterable.error_context true it attrs a2 loc).2
      = BuildResult.panic
          (ErrorContext.render
            { attrs := attrs, attr := a2, offset := it.calc_offset loc,
              reason := if a2.isSome then ErrorReason.ParsingError
                        else ErrorReason.UnknownAttr }) ∧
    (Iterable.error_context false it attrs a2 loc).2
      = BuildResult.value
          { attrs := attrs, attr := a2, offset := it.calc_offset loc,
            reason := if a2.isSome then ErrorReason.ParsingError
                      else ErrorReason.UnknownAttr } ∧
    (Iterable.error_context true it attrs a2 loc).1.buf = [] :=
  ⟨rfl, rfl, rfl, rfl, rfl⟩

end Netlink
